import Mathlib

/-!
Verification of the HEAR all-reduce interposer (src/hear.cpp).

The embedding models the program at two levels.

First, the key/nonce store (struct HearState: _k_s_storage, _k_s_map,
_k_n_storage, _k_n_map) and its operations update_k_n and insert_new_comm are
embedded directly, with the unordered_maps modelled as association lists and
the MPL collectives (PMPI_Allgather, PMPI_Bcast) as environment parameters.
Assertion failures (assert in C, which aborts the process) are modelled as a
distinguished result.

Second, the intercepted MPI_Allreduce wrapper is embedded as a state/trace
function: it records the sequence of core events (nonce advance, scratch
buffer acquisition, block encryption, shadow MPL call, decryption, buffer
release) together with the resource state (number of scratch buffers held:
pool slabs in use, or live heap allocations when the pool is disabled).
Both build variants are embedded: the non-pipelined wrapper and the
pipelined wrapper (USE_PIPELINING), whose while loop is the recursive
function pipeLoop.

The mask engine itself (encryption::encrypt_int_sum_naive and friends) lives
in encrypt.hpp, which is not part of this repository's sources; the integer
sum engine is modelled from the spec where a claim needs its arithmetic.
-/

namespace Hear

/-- Communicator handle: an abstract identifier supplied by the MPL, used
only as a key. -/
abbrev MPIComm := Nat

/-- Result code MPI_SUCCESS. -/
def MPI_SUCCESS : Nat := 0

/-- Result code MPI_ERR_BUFFER. -/
def MPI_ERR_BUFFER : Nat := 1

/-- Result code MPI_ERR_TYPE. -/
def MPI_ERR_TYPE : Nat := 3

/-- MPI_Datatype, distinguishing the two datatypes the wrapper tests for
(MPI_INT, MPI_FLOAT) from every other datatype. -/
inductive Dtype
| int
| float
| other
deriving DecidableEq, Repr

/-- MPI_Op, distinguishing MPI_SUM and MPI_PROD from every other op. -/
inductive ROp
| sum
| prod
| other
deriving DecidableEq, Repr

/-- Key/nonce store of HearState: append-only storage vectors plus
communicator-to-index maps, mirroring _k_s_storage, _k_s_map, _k_n_storage
and _k_n_map of src/hear.cpp. -/
structure KNStore where
  k_s_storage : List (List Nat)
  k_s_map : List (MPIComm × Nat)
  k_n_storage : List Nat
  k_n_map : List (MPIComm × Nat)
deriving DecidableEq, Repr

/-- Lookup in the association-list model of std::unordered_map (find). -/
def mapLookup : List (MPIComm × Nat) → MPIComm → Option Nat
| [], _ => none
| p :: m, c => if p.1 = c then some p.2 else mapLookup m c

/-- Model of std::unordered_map::insert: never overwrites; the Bool is the
second component of the returned pair, true when the insertion took place. -/
def mapInsert (m : List (MPIComm × Nat)) (c : MPIComm) (v : Nat) :
    List (MPIComm × Nat) × Bool :=
  match mapLookup m c with
  | some _ => (m, false)
  | none => (m ++ [(c, v)], true)

/-- Model of std::unordered_map::operator[]: when the key is absent it
value-initialises the mapped index to 0 and inserts it. -/
def mapIndexOrInsert (m : List (MPIComm × Nat)) (c : MPIComm) :
    List (MPIComm × Nat) × Nat :=
  match mapLookup m c with
  | some i => (m, i)
  | none => (m ++ [(c, 0)], 0)

/-- Accessor: the shared-key vector stored for a communicator. -/
def sharedKeys (st : KNStore) (c : MPIComm) : Option (List Nat) :=
  (mapLookup st.k_s_map c).bind fun i => st.k_s_storage[i]?

/-- Accessor: the nonce stored for a communicator. -/
def nonce (st : KNStore) (c : MPIComm) : Option Nat :=
  (mapLookup st.k_n_map c).bind fun i => st.k_n_storage[i]?

/-- HearState::update_k_n: tmp = prng(_k_n_storage[_k_n_map[comm]]);
_k_n_storage[_k_n_map[comm]] = tmp. The map subscripts use operator[]. -/
def update_k_n (prng : Nat → Nat) (st : KNStore) (comm : MPIComm) : KNStore :=
  let p := mapIndexOrInsert st.k_n_map comm
  let tmp := prng (st.k_n_storage.getD p.2 0)
  { st with k_n_map := p.1, k_n_storage := st.k_n_storage.set p.2 tmp }

/-- Environment of one insert_new_comm call: the values MPI_Comm_size and
MPI_Comm_rank report, the fresh random words drawn from
encryption::encr_noise_generator, and the behaviour of the two MPL
collectives. allgatherOut is the in-place effect of PMPI_Allgather on the
caller's key vector; rootWord is the word PMPI_Bcast delivers into the nonce
cell (the root rank's word). -/
structure RegEnv where
  comm_size : Nat
  my_rank : Nat
  fresh : Nat
  rootFresh : Nat
  allgatherRet : Nat
  allgatherOut : List Nat → List Nat
  bcastRet : Nat
  rootWord : Nat

/-- Outcome of insert_new_comm: either one of the assert(ok) statements
fires (aborting the process), or the function returns a code together with
the store it leaves behind. -/
inductive RegResult
| assertFailed
| ret (code : Nat) (st : KNStore)

/-- HearState::insert_new_comm, lines 184-216 of src/hear.cpp:
push a key vector pre-filled with my_rank whose own slot holds a fresh
random word, insert the map entry (assert the insertion is new), run the
in-place all-gather, then push the nonce cell (root's fresh word at the
root, 42 elsewhere), insert its map entry (assert again), and broadcast the
root's word into the cell. Each failing collective makes the function
return that code. -/
def insert_new_comm (env : RegEnv) (st : KNStore) (comm : MPIComm) : RegResult :=
  let v0 := (List.replicate env.comm_size env.my_rank).set env.my_rank env.fresh
  let ksStorage1 := st.k_s_storage ++ [v0]
  let insKs := mapInsert st.k_s_map comm (ksStorage1.length - 1)
  if insKs.2 = false then .assertFailed else
  let idxS := (mapLookup insKs.1 comm).getD 0
  let ksStorage2 := ksStorage1.set idxS (env.allgatherOut (ksStorage1.getD idxS []))
  let st1 : KNStore := { st with k_s_storage := ksStorage2, k_s_map := insKs.1 }
  if env.allgatherRet ≠ MPI_SUCCESS then .ret env.allgatherRet st1 else
  let knStorage1 := st1.k_n_storage ++
    [if env.my_rank = 0 then env.rootFresh else 42]
  let insKn := mapInsert st1.k_n_map comm (knStorage1.length - 1)
  if insKn.2 = false then .assertFailed else
  let idxN := (mapLookup insKn.1 comm).getD 0
  let knStorage2 := knStorage1.set idxN env.rootWord
  let st2 : KNStore := { st1 with k_n_storage := knStorage2, k_n_map := insKn.1 }
  if env.bcastRet ≠ MPI_SUCCESS then .ret env.bcastRet st2 else
  .ret MPI_SUCCESS st2

/-- Core events of one intercepted all-reduce, in program order: nonce
advance, scratch-buffer acquisition, block encryption, shadow (P)MPI
all-reduce call, block decryption, scratch-buffer release. -/
inductive Ev
| advance
| acquire
| encrypt
| shadow
| decrypt
| release
deriving DecidableEq, Repr

/-- Process-wide interposer state: the key/nonce store plus the number of
scratch buffers currently held (pool slabs in use, or live heap scratch
allocations when the pool is disabled; the pool's free-slab count is the
pool size minus this number). -/
structure HearSt where
  store : KNStore
  live : Nat
deriving DecidableEq, Repr

/-- Environment of one intercepted MPI_Allreduce call: the PRF back-end,
whether the n-th scratch-buffer acquisition of the call yields a buffer,
the return code of the n-th shadow (P)MPI all-reduce, and the code a
bypassed call's native forward returns. -/
structure CallEnv where
  prng : Nat → Nat
  allocOk : Nat → Bool
  shadowRet : Nat → Nat
  nativeRet : Nat

/-- Outcome of one intercepted MPI_Allreduce: a returned code, or an abort
through a failed assertion (release_memory's assert(buf)). -/
inductive CallRes
| ret (code : Nat)
| assertAbort
deriving DecidableEq, Repr

/-- Line 382 of src/hear.cpp:
((op != MPI_SUM) && (op != MPI_PROD)) || ((datatype != MPI_INT) && (datatype != MPI_FLOAT)).
Note the two conjuncts test the op and the datatype independently. -/
def bypass (dt : Dtype) (op : ROp) : Bool :=
  (op != ROp.sum && op != ROp.prod) || (dt != Dtype.int && dt != Dtype.float)

/-- HearState::release_memory on a held buffer: returns the slab to the pool
(or frees the heap allocation). The assert(buf) abort on a null argument is
modelled at the call site that can pass null. -/
def release_memory (st : HearSt) : HearSt :=
  { st with live := st.live - 1 }

/-- HearState::encrypt_sendbuf at the level of resources and events: acquire
a scratch buffer (null when the acquisition fails), then dispatch on
(op, datatype). The pairs (MPI_SUM, MPI_INT), (MPI_SUM, MPI_FLOAT) and
(MPI_PROD, MPI_INT) encrypt into the buffer and return it; every other pair
reaches fail_cleanup, which releases the buffer and returns null. The Bool
says whether a buffer was returned. -/
def encrypt_sendbuf (env : CallEnv) (k : Nat) (st : HearSt) (dt : Dtype)
    (op : ROp) : Bool × HearSt × List Ev :=
  if env.allocOk k = false then (false, st, [])
  else
    let st1 : HearSt := { st with live := st.live + 1 }
    match op, dt with
    | .sum, .int => (true, st1, [.acquire, .encrypt])
    | .sum, .float => (true, st1, [.acquire, .encrypt])
    | .prod, .int => (true, st1, [.acquire, .encrypt])
    | _, _ => (false, release_memory st1, [.acquire, .release])

/-- Return code of HearState::decrypt_recvbuf: MPI_SUCCESS on the three
pairs the dispatch supports, MPI_ERR_TYPE otherwise. -/
def decrypt_recvbuf_ret (dt : Dtype) (op : ROp) : Nat :=
  match op, dt with
  | .sum, .int => MPI_SUCCESS
  | .sum, .float => MPI_SUCCESS
  | .prod, .int => MPI_SUCCESS
  | _, _ => MPI_ERR_TYPE

/-- Combinations on which encrypt_sendbuf's dispatch succeeds. -/
def coreSupported (dt : Dtype) (op : ROp) : Bool :=
  match op, dt with
  | .sum, .int => true
  | .sum, .float => true
  | .prod, .int => true
  | _, _ => false

/-- Intercepted MPI_Allreduce of the non-pipelined build (USE_PIPELINING
off), lines 357-500 of src/hear.cpp: bypass test, nonce advance,
encrypt_sendbuf (null means MPI_ERR_BUFFER), shadow PMPI_Allreduce,
decrypt_recvbuf, release; any failing step after the buffer is held goes to
cleanup, which releases the buffer and returns the failing code. The result
is the returned code, the new state, and the trace of core events. -/
def MPI_Allreduce_nonpipelined (env : CallEnv) (st : HearSt) (count : Nat)
    (dt : Dtype) (op : ROp) (comm : MPIComm) : CallRes × HearSt × List Ev :=
  if bypass dt op then (.ret env.nativeRet, st, [])
  else
    let st1 : HearSt := { st with store := update_k_n env.prng st.store comm }
    let e := encrypt_sendbuf env 0 st1 dt op
    if e.1 = false then (.ret MPI_ERR_BUFFER, e.2.1, .advance :: e.2.2)
    else
      let r := env.shadowRet 0
      if r ≠ MPI_SUCCESS then
        (.ret r, release_memory e.2.1, .advance :: e.2.2 ++ [.shadow, .release])
      else
        let d := decrypt_recvbuf_ret dt op
        if d ≠ MPI_SUCCESS then
          (.ret d, release_memory e.2.1,
            .advance :: e.2.2 ++ [.shadow, .decrypt, .release])
        else
          (.ret MPI_SUCCESS, release_memory e.2.1,
            .advance :: e.2.2 ++ [.shadow, .decrypt, .release])

/-- While loop of the pipelined MPI_Allreduce (lines 438-485 of
src/hear.cpp), entered holding the current block's scratch buffer; iter
numbers the shadow calls of the call, and acquisition n of the call has
index n (the acquisition before the loop had index 0). Each iteration
launches PMPI_Iallreduce on the current block, decrypts the previous block
when there is one, acquires and encrypts the next block when one remains
(a null buffer sets MPI_ERR_BUFFER and goes to cleanup, which releases the
current buffer), waits, and releases the current buffer. A failing shadow
call or decryption also goes to cleanup. After the loop the last block is
decrypted; a failure there returns directly, every buffer having already
been released. -/
def pipeLoop (env : CallEnv) (B : Nat) (hB : 0 < B) (dt : Dtype) (op : ROp)
    (iter : Nat) (st : HearSt) (total : Nat) (first : Bool) :
    CallRes × HearSt × List Ev :=
  if h : total = 0 then
    let fd := decrypt_recvbuf_ret dt op
    (.ret fd, st, [.decrypt])
  else
    let cur := min total B
    let r := env.shadowRet iter
    if r ≠ MPI_SUCCESS then (.ret r, release_memory st, [.shadow, .release])
    else
      let dEvs : List Ev := if first then [] else [.decrypt]
      let d := if first then MPI_SUCCESS else decrypt_recvbuf_ret dt op
      if d ≠ MPI_SUCCESS then
        (.ret d, release_memory st, .shadow :: dEvs ++ [.release])
      else
        let rest := total - cur
        if rest = 0 then
          let l := pipeLoop env B hB dt op (iter + 1) (release_memory st) 0 false
          (l.1, l.2.1, .shadow :: dEvs ++ [.release] ++ l.2.2)
        else
          let e := encrypt_sendbuf env (iter + 1) st dt op
          if e.1 = false then
            (.ret MPI_ERR_BUFFER, release_memory e.2.1,
              .shadow :: dEvs ++ e.2.2 ++ [.release])
          else
            let l := pipeLoop env B hB dt op (iter + 1) (release_memory e.2.1)
              rest false
            (l.1, l.2.1, .shadow :: dEvs ++ e.2.2 ++ [.release] ++ l.2.2)
termination_by total
decreasing_by
  all_goals simp_wf
  all_goals omega

/-- Intercepted MPI_Allreduce of the pipelined build (USE_PIPELINING on)
with block size B: bypass test, nonce advance, initial encrypt_sendbuf of
the first block, then the while loop. When the initial encrypt_sendbuf
returns null the code sets MPI_ERR_BUFFER and goes to cleanup, whose
release_memory(encr_sendbuf) receives the null pointer and fails its
assert(buf): the process aborts. -/
def MPI_Allreduce_pipelined (env : CallEnv) (B : Nat) (hB : 0 < B)
    (st : HearSt) (count : Nat) (dt : Dtype) (op : ROp) (comm : MPIComm) :
    CallRes × HearSt × List Ev :=
  if bypass dt op then (.ret env.nativeRet, st, [])
  else
    let st1 : HearSt := { st with store := update_k_n env.prng st.store comm }
    let e := encrypt_sendbuf env 0 st1 dt op
    if e.1 = false then (.assertAbort, e.2.1, .advance :: e.2.2)
    else
      let l := pipeLoop env B hB dt op 0 e.2.1 count true
      (l.1, l.2.1, .advance :: e.2.2 ++ l.2.2)

/-- Number of iterations of the pipelined while loop on count elements and
block size B: the number of blocks, ceiling of count / B. -/
def nblocks (count B : Nat) : Nat := (count + B - 1) / B

/-- Modelled from the spec: the per-element mask of the integer-sum mask
engine (encryption::encrypt_int_sum_naive of encrypt.hpp, which is not
among this repository's sources): m(r, j) = prf(K_s[r] xor (K_n + j)),
a 32-bit word. -/
def mask (prf : Nat → Nat) (ks : List Nat) (kn : Nat) (r j : Nat) : Nat :=
  prf ((ks.getD r 0) ^^^ ((kn + j) % 2 ^ 32)) % 2 ^ 32

/-- Modelled from the spec: element j of the masked vector rank r emits for
the integer-sum engine. Ranks below N - 1 add their mask modulo 2^32; the
last rank carries the negated sum of the other ranks' masks, so that the
masks telescope to zero under the MPL's sum. The last-rank flag matches the
my_rank == comm_size - 1 argument of line 258 of src/hear.cpp. -/
def encrypt_int_sum (prf : Nat → Nat) (ks : List Nat) (kn : Nat) (N r : Nat)
    (x : Nat) (j : Nat) : Nat :=
  if r = N - 1 then
    (x + (2 ^ 32 -
      (∑ i in Finset.range (N - 1), mask prf ks kn i j) % 2 ^ 32)) % 2 ^ 32
  else
    (x + mask prf ks kn r j) % 2 ^ 32

/-- Modelled from the spec: decryption on sum is a no-op on the result
buffer. -/
def decrypt_int_sum (v : Nat) : Nat := v

/-- Concrete exemplar state: one communicator (handle 0) registered with a
two-rank shared-key vector and a nonce. -/
def st0 : HearSt :=
  { store :=
      { k_s_storage := [[3, 4]]
        k_s_map := [(0, 0)]
        k_n_storage := [5]
        k_n_map := [(0, 0)] }
    live := 0 }

/-- Concrete exemplar call environment: every acquisition succeeds and every
shadow call returns MPI_SUCCESS. -/
def envOk : CallEnv :=
  { prng := Nat.succ
    allocOk := fun _ => true
    shadowRet := fun _ => 0
    nativeRet := 0 }

/-- Concrete exemplar call environment: every acquisition succeeds and every
shadow call fails with code 7. -/
def envShadowFail : CallEnv :=
  { prng := Nat.succ
    allocOk := fun _ => true
    shadowRet := fun _ => 7
    nativeRet := 0 }

/-- Concrete exemplar call environment: every acquisition fails. -/
def envAllocFail : CallEnv :=
  { prng := Nat.succ
    allocOk := fun _ => false
    shadowRet := fun _ => 0
    nativeRet := 0 }

/-- Concrete exemplar call environment: the acquisitions after the first
fail, shadow calls succeed. -/
def envAllocFailLater : CallEnv :=
  { prng := Nat.succ
    allocOk := fun k => k == 0
    shadowRet := fun _ => 0
    nativeRet := 0 }

/-- Concrete exemplar registration environment: two ranks, caller is rank 0,
both collectives succeed, and the all-gather delivers the gathered vector
unchanged. -/
def regEnv0 : RegEnv :=
  { comm_size := 2
    my_rank := 0
    fresh := 7
    rootFresh := 9
    allgatherRet := 0
    allgatherOut := fun v => v
    bcastRet := 0
    rootWord := 9 }

/-!
Helper lemmas shared by the claim theorems.
-/

theorem mapLookup_append_self (m : List (MPIComm × Nat)) (c : MPIComm) (v : Nat)
    (h : mapLookup m c = none) : mapLookup (m ++ [(c, v)]) c = some v := by
  induction m with
  | nil => simp [mapLookup]
  | cons p m ih =>
    by_cases hp : p.1 = c
    · rw [mapLookup, if_pos hp] at h
      exact absurd h (by simp)
    · rw [mapLookup, if_neg hp] at h
      rw [List.cons_append, mapLookup, if_neg hp]
      exact ih h

theorem encrypt_sendbuf_store (env : CallEnv) (k : Nat) (st : HearSt)
    (dt : Dtype) (op : ROp) :
    ((encrypt_sendbuf env k st dt op).2.1).store = st.store := by
  cases op <;> cases dt <;> by_cases h : env.allocOk k = false <;>
    simp [encrypt_sendbuf, h, release_memory]

theorem encrypt_sendbuf_live_false (env : CallEnv) (k : Nat) (st : HearSt)
    (dt : Dtype) (op : ROp) (h : (encrypt_sendbuf env k st dt op).1 = false) :
    ((encrypt_sendbuf env k st dt op).2.1).live = st.live := by
  cases op <;> cases dt <;> by_cases ha : env.allocOk k = false <;>
    simp_all [encrypt_sendbuf, release_memory]

theorem encrypt_sendbuf_live_true (env : CallEnv) (k : Nat) (st : HearSt)
    (dt : Dtype) (op : ROp) (h : (encrypt_sendbuf env k st dt op).1 = true) :
    ((encrypt_sendbuf env k st dt op).2.1).live = st.live + 1 := by
  cases op <;> cases dt <;> by_cases ha : env.allocOk k = false <;>
    simp_all [encrypt_sendbuf, release_memory]

theorem encrypt_sendbuf_allocFail (env : CallEnv) (k : Nat) (st : HearSt)
    (dt : Dtype) (op : ROp) (ha : env.allocOk k = false) :
    encrypt_sendbuf env k st dt op = (false, st, []) := by
  simp [encrypt_sendbuf, ha]

theorem encrypt_sendbuf_ok (env : CallEnv) (k : Nat) (st : HearSt)
    (dt : Dtype) (op : ROp) (hs : coreSupported dt op = true)
    (ha : env.allocOk k = true) :
    encrypt_sendbuf env k st dt op =
      (true, { st with live := st.live + 1 }, [.acquire, .encrypt]) := by
  cases op <;> cases dt <;> simp_all [encrypt_sendbuf, coreSupported]

theorem encrypt_sendbuf_no_advance (env : CallEnv) (k : Nat) (st : HearSt)
    (dt : Dtype) (op : ROp) :
    Ev.advance ∉ (encrypt_sendbuf env k st dt op).2.2 := by
  cases op <;> cases dt <;> by_cases h : env.allocOk k = false <;>
    simp [encrypt_sendbuf, h]

theorem coreSupported_not_bypass (dt : Dtype) (op : ROp)
    (hs : coreSupported dt op = true) : bypass dt op = false := by
  cases op <;> cases dt <;> simp_all [coreSupported, bypass]

theorem coreSupported_decrypt (dt : Dtype) (op : ROp)
    (hs : coreSupported dt op = true) :
    decrypt_recvbuf_ret dt op = MPI_SUCCESS := by
  cases op <;> cases dt <;> simp_all [coreSupported, decrypt_recvbuf_ret]

theorem pipeLoop_zero (env : CallEnv) (B : Nat) (hB : 0 < B) (dt : Dtype)
    (op : ROp) (iter : Nat) (st : HearSt) (first : Bool) :
    pipeLoop env B hB dt op iter st 0 first =
      (.ret (decrypt_recvbuf_ret dt op), st, [.decrypt]) := by
  rw [pipeLoop]
  simp

theorem pipeLoop_store (env : CallEnv) (B : Nat) (hB : 0 < B) (dt : Dtype)
    (op : ROp) :
    ∀ total iter st first,
      ((pipeLoop env B hB dt op iter st total first).2.1).store = st.store := by
  intro total
  induction total using Nat.strong_induction_on with
  | _ total ih =>
    intro iter st first
    rw [pipeLoop]
    by_cases h0 : total = 0
    · simp [h0]
    · by_cases hr : env.shadowRet iter = MPI_SUCCESS
      · by_cases hd : (if first then MPI_SUCCESS else decrypt_recvbuf_ret dt op) = MPI_SUCCESS
        · by_cases hrest : total - min total B = 0
          · simp [h0, hr, hd, hrest, ih 0 (by omega), release_memory]
          · by_cases he : (encrypt_sendbuf env (iter + 1) st dt op).1 = false
            · simp [h0, hr, hd, hrest, he, release_memory,
                encrypt_sendbuf_store]
            · simp [h0, hr, hd, hrest, he,
                ih (total - min total B) (by omega), release_memory,
                encrypt_sendbuf_store]
        · simp [h0, hr, hd, release_memory]
      · simp [h0, hr, release_memory]

theorem pipeLoop_live (env : CallEnv) (B : Nat) (hB : 0 < B) (dt : Dtype)
    (op : ROp) :
    ∀ total iter st first, 0 < total →
      ((pipeLoop env B hB dt op iter st total first).2.1).live = st.live - 1 := by
  intro total
  induction total using Nat.strong_induction_on with
  | _ total ih =>
    intro iter st first htot
    rw [pipeLoop]
    by_cases hr : env.shadowRet iter = MPI_SUCCESS
    · by_cases hd : (if first then MPI_SUCCESS else decrypt_recvbuf_ret dt op) = MPI_SUCCESS
      · by_cases hrest : total - min total B = 0
        · simp [htot.ne', hr, hd, hrest, pipeLoop_zero, release_memory]
        · by_cases he : (encrypt_sendbuf env (iter + 1) st dt op).1 = false
          · simp [htot.ne', hr, hd, hrest, he, release_memory,
              encrypt_sendbuf_live_false env (iter + 1) st dt op he]
          · have hlive := encrypt_sendbuf_live_true env (iter + 1) st dt op
              (by simpa using he)
            simp [htot.ne', hr, hd, hrest, he, release_memory,
              ih (total - min total B) (by omega) (iter + 1) _ false (by omega),
              hlive]
      · simp [htot.ne', hr, hd, release_memory]
    · simp [htot.ne', hr, release_memory]

theorem pipeLoop_no_advance (env : CallEnv) (B : Nat) (hB : 0 < B)
    (dt : Dtype) (op : ROp) :
    ∀ total iter st first,
      Ev.advance ∉ (pipeLoop env B hB dt op iter st total first).2.2 := by
  intro total
  induction total using Nat.strong_induction_on with
  | _ total ih =>
    intro iter st first
    cases first with
    | true =>
      rw [pipeLoop]
      by_cases h0 : total = 0
      · simp [h0]
      · by_cases hr : env.shadowRet iter = MPI_SUCCESS
        · by_cases hrest : total - min total B = 0
          · simp [h0, hr, hrest, ih 0 (by omega)]
          · by_cases he : (encrypt_sendbuf env (iter + 1) st dt op).1 = false
            · simp [h0, hr, hrest, he, encrypt_sendbuf_no_advance]
            · simp [h0, hr, hrest, he, encrypt_sendbuf_no_advance,
                ih (total - min total B) (by omega)]
        · simp [h0, hr]
    | false =>
      rw [pipeLoop]
      by_cases h0 : total = 0
      · simp [h0]
      · by_cases hr : env.shadowRet iter = MPI_SUCCESS
        · by_cases hd : decrypt_recvbuf_ret dt op = MPI_SUCCESS
          · by_cases hrest : total - min total B = 0
            · simp [h0, hr, hd, hrest, ih 0 (by omega)]
            · by_cases he : (encrypt_sendbuf env (iter + 1) st dt op).1 = false
              · simp [h0, hr, hd, hrest, he, encrypt_sendbuf_no_advance]
              · simp [h0, hr, hd, hrest, he, encrypt_sendbuf_no_advance,
                  ih (total - min total B) (by omega)]
          · simp [h0, hr, hd]
        · simp [h0, hr]

theorem nblocks_eq_one (total B : Nat) (h1 : 0 < total) (h2 : total ≤ B) :
    nblocks total B = 1 := by
  unfold nblocks
  exact Nat.div_eq_of_lt_le (by omega) (by omega)

theorem nblocks_step (total B : Nat) (hB : 0 < B) (h : B < total) :
    nblocks total B = nblocks (total - B) B + 1 := by
  unfold nblocks
  have h1 : total + B - 1 = (total - B + B - 1) + B := by omega
  rw [h1, Nat.add_div_right _ hB]

theorem pipeLoop_shadow_err (env : CallEnv) (B : Nat) (hB : 0 < B)
    (dt : Dtype) (op : ROp) (hs : coreSupported dt op = true)
    (ha : ∀ i, env.allocOk i = true) :
    ∀ total j iter st first, 0 < total →
      (∀ i, i < j → env.shadowRet (iter + i) = MPI_SUCCESS) →
      env.shadowRet (iter + j) ≠ MPI_SUCCESS →
      j < nblocks total B →
      (pipeLoop env B hB dt op iter st total first).1 =
        .ret (env.shadowRet (iter + j)) := by
  intro total
  induction total using Nat.strong_induction_on with
  | _ total ih =>
    intro j iter st first htot hpre hfail hjn
    rw [pipeLoop]
    rcases Nat.eq_zero_or_pos j with rfl | hj
    · have hr : env.shadowRet iter ≠ MPI_SUCCESS := by simpa using hfail
      simp [htot.ne', hr]
    · have h0 : env.shadowRet iter = MPI_SUCCESS := by
        have := hpre 0 hj
        simpa using this
      have hd : decrypt_recvbuf_ret dt op = MPI_SUCCESS :=
        coreSupported_decrypt dt op hs
      by_cases hrest : total - min total B = 0
      · have h1 : nblocks total B = 1 := nblocks_eq_one total B htot (by omega)
        omega
      · have hBlt : B < total := by omega
        obtain ⟨k, rfl⟩ : ∃ k, j = k + 1 := ⟨j - 1, by omega⟩
        have hok := encrypt_sendbuf_ok env (iter + 1) st dt op hs (ha (iter + 1))
        have hrec := ih (total - min total B) (by omega) k (iter + 1)
          { store := st.store, live := st.live + 1 - 1 } false (by omega)
          (fun i hi => by
            have h2 := hpre (i + 1) (by omega)
            have h3 : iter + 1 + i = iter + (i + 1) := by omega
            rw [h3]; exact h2)
          (by
            have h3 : iter + 1 + k = iter + (k + 1) := by omega
            rw [h3]; exact hfail)
          (by
            have hmin : total - min total B = total - B := by omega
            rw [hmin]
            have := nblocks_step total B hB hBlt
            omega)
        simp [htot.ne', h0, hd, hrest, hok, release_memory] at hrec ⊢
        rw [hrec]
        have h3 : iter + 1 + k = iter + (k + 1) := by omega
        rw [h3]

theorem pipeLoop_alloc_err (env : CallEnv) (B : Nat) (hB : 0 < B)
    (dt : Dtype) (op : ROp) (hs : coreSupported dt op = true)
    (hsh : ∀ i, env.shadowRet i = MPI_SUCCESS) :
    ∀ total j iter st first, 0 < total →
      (∀ i, i < j → env.allocOk (iter + 1 + i) = true) →
      env.allocOk (iter + 1 + j) = false →
      j + 1 < nblocks total B →
      (pipeLoop env B hB dt op iter st total first).1 = .ret MPI_ERR_BUFFER := by
  intro total
  induction total using Nat.strong_induction_on with
  | _ total ih =>
    intro j iter st first htot hpre hfail hjn
    rw [pipeLoop]
    have h0 : env.shadowRet iter = MPI_SUCCESS := hsh iter
    have hd : decrypt_recvbuf_ret dt op = MPI_SUCCESS :=
      coreSupported_decrypt dt op hs
    by_cases hrest : total - min total B = 0
    · have h1 : nblocks total B = 1 := nblocks_eq_one total B htot (by omega)
      omega
    · have hBlt : B < total := by omega
      rcases Nat.eq_zero_or_pos j with rfl | hj
      · have hfault := encrypt_sendbuf_allocFail env (iter + 1) st dt op
          (by simpa using hfail)
        simp [htot.ne', h0, hd, hrest, hfault]
      · obtain ⟨k, rfl⟩ : ∃ k, j = k + 1 := ⟨j - 1, by omega⟩
        have hok := encrypt_sendbuf_ok env (iter + 1) st dt op hs
          (by simpa using hpre 0 hj)
        have hrec := ih (total - min total B) (by omega) k (iter + 1)
          { store := st.store, live := st.live + 1 - 1 } false (by omega)
          (fun i hi => by
            have h2 := hpre (i + 1) (by omega)
            have h3 : iter + 1 + 1 + i = iter + 1 + (i + 1) := by omega
            rw [h3]; exact h2)
          (by
            have h3 : iter + 1 + 1 + k = iter + 1 + (k + 1) := by omega
            rw [h3]; exact hfail)
          (by
            have hmin : total - min total B = total - B := by omega
            rw [hmin]
            have := nblocks_step total B hB hBlt
            omega)
        simp [htot.ne', h0, hd, hrest, hok, release_memory] at hrec ⊢
        exact hrec

theorem encrypt_sendbuf_unsupported (env : CallEnv) (k : Nat) (st : HearSt)
    (dt : Dtype) (op : ROp) (hs : coreSupported dt op = false)
    (ha : env.allocOk k = true) :
    encrypt_sendbuf env k st dt op = (false, st, [.acquire, .release]) := by
  cases op <;> cases dt <;>
    simp_all [encrypt_sendbuf, coreSupported, release_memory]

theorem np_bypass (env : CallEnv) (st : HearSt) (count : Nat) (dt : Dtype)
    (op : ROp) (comm : MPIComm) (h : bypass dt op = true) :
    MPI_Allreduce_nonpipelined env st count dt op comm =
      (.ret env.nativeRet, st, []) := by
  simp [MPI_Allreduce_nonpipelined, h]

theorem np_alloc_fail (env : CallEnv) (st : HearSt) (count : Nat) (dt : Dtype)
    (op : ROp) (comm : MPIComm) (h : bypass dt op = false)
    (ha : env.allocOk 0 = false) :
    MPI_Allreduce_nonpipelined env st count dt op comm =
      (.ret MPI_ERR_BUFFER,
        { st with store := update_k_n env.prng st.store comm }, [.advance]) := by
  simp [MPI_Allreduce_nonpipelined, h,
    encrypt_sendbuf_allocFail env 0 _ dt op ha]

theorem np_unsupported (env : CallEnv) (st : HearSt) (count : Nat) (dt : Dtype)
    (op : ROp) (comm : MPIComm) (h : bypass dt op = false)
    (hs : coreSupported dt op = false) (ha : env.allocOk 0 = true) :
    MPI_Allreduce_nonpipelined env st count dt op comm =
      (.ret MPI_ERR_BUFFER,
        { st with store := update_k_n env.prng st.store comm },
        [.advance, .acquire, .release]) := by
  simp [MPI_Allreduce_nonpipelined, h,
    encrypt_sendbuf_unsupported env 0 _ dt op hs ha]

theorem np_ok (env : CallEnv) (st : HearSt) (count : Nat) (dt : Dtype)
    (op : ROp) (comm : MPIComm) (hs : coreSupported dt op = true)
    (ha : env.allocOk 0 = true) :
    MPI_Allreduce_nonpipelined env st count dt op comm =
      if env.shadowRet 0 ≠ MPI_SUCCESS then
        (.ret (env.shadowRet 0),
          { st with store := update_k_n env.prng st.store comm },
          [.advance, .acquire, .encrypt, .shadow, .release])
      else
        (.ret MPI_SUCCESS,
          { st with store := update_k_n env.prng st.store comm },
          [.advance, .acquire, .encrypt, .shadow, .decrypt, .release]) := by
  have hd := coreSupported_decrypt dt op hs
  have hb := coreSupported_not_bypass dt op hs
  by_cases hr : env.shadowRet 0 = MPI_SUCCESS <;>
    simp [MPI_Allreduce_nonpipelined, hb, hd, hr, release_memory,
      encrypt_sendbuf_ok env 0 _ dt op hs ha]

theorem pl_bypass (env : CallEnv) (B : Nat) (hB : 0 < B) (st : HearSt)
    (count : Nat) (dt : Dtype) (op : ROp) (comm : MPIComm)
    (h : bypass dt op = true) :
    MPI_Allreduce_pipelined env B hB st count dt op comm =
      (.ret env.nativeRet, st, []) := by
  simp [MPI_Allreduce_pipelined, h]

theorem pl_alloc_fail_first (env : CallEnv) (B : Nat) (hB : 0 < B)
    (st : HearSt) (count : Nat) (dt : Dtype) (op : ROp) (comm : MPIComm)
    (h : bypass dt op = false) (ha : env.allocOk 0 = false) :
    MPI_Allreduce_pipelined env B hB st count dt op comm =
      (.assertAbort,
        { st with store := update_k_n env.prng st.store comm }, [.advance]) := by
  simp [MPI_Allreduce_pipelined, h,
    encrypt_sendbuf_allocFail env 0 _ dt op ha]

theorem pl_unsupported (env : CallEnv) (B : Nat) (hB : 0 < B) (st : HearSt)
    (count : Nat) (dt : Dtype) (op : ROp) (comm : MPIComm)
    (h : bypass dt op = false) (hs : coreSupported dt op = false)
    (ha : env.allocOk 0 = true) :
    MPI_Allreduce_pipelined env B hB st count dt op comm =
      (.assertAbort,
        { st with store := update_k_n env.prng st.store comm },
        [.advance, .acquire, .release]) := by
  simp [MPI_Allreduce_pipelined, h,
    encrypt_sendbuf_unsupported env 0 _ dt op hs ha]

theorem pl_ok_entry (env : CallEnv) (B : Nat) (hB : 0 < B) (st : HearSt)
    (count : Nat) (dt : Dtype) (op : ROp) (comm : MPIComm)
    (hs : coreSupported dt op = true) (ha : env.allocOk 0 = true) :
    MPI_Allreduce_pipelined env B hB st count dt op comm =
      ((pipeLoop env B hB dt op 0
          { store := update_k_n env.prng st.store comm, live := st.live + 1 }
          count true).1,
       (pipeLoop env B hB dt op 0
          { store := update_k_n env.prng st.store comm, live := st.live + 1 }
          count true).2.1,
       .advance :: .acquire :: .encrypt ::
         (pipeLoop env B hB dt op 0
            { store := update_k_n env.prng st.store comm, live := st.live + 1 }
            count true).2.2) := by
  have hb := coreSupported_not_bypass dt op hs
  simp [MPI_Allreduce_pipelined, hb,
    encrypt_sendbuf_ok env 0 _ dt op hs ha]

theorem head_advance_before (tr t : List Ev) (h : tr = .advance :: t) :
    ∀ l₁ l₂, tr = l₁ ++ Ev.encrypt :: l₂ → Ev.advance ∈ l₁ := by
  intro l₁ l₂ he
  cases l₁ with
  | nil =>
    rw [h] at he
    simp at he
  | cons a l =>
    rw [h] at he
    simp only [List.cons_append, List.cons.injEq] at he
    rw [← he.1]
    exact List.mem_cons_self _ _

/-!
Claim theorems.
-/

/-- C6: registering the same communicator handle twice in the key/nonce
store is a programming error that aborts the process: for every handle
already present in the store, a second insert_new_comm on that handle fails
the duplicate-insertion assertion (assert(ok) on the map insert) rather than
returning normally. -/
theorem duplicate_comm_asserts (env : RegEnv) (st : KNStore) (comm : MPIComm)
    (i : Nat) (h : mapLookup st.k_s_map comm = some i) :
    insert_new_comm env st comm = RegResult.assertFailed := by
  unfold insert_new_comm
  simp [mapInsert, h]

/-- Witness for C6 at a concrete store in which communicator 0 is already
registered. -/
theorem duplicate_comm_asserts_witness :
    mapLookup st0.store.k_s_map 0 = some 0 ∧
    insert_new_comm regEnv0 st0.store 0 = RegResult.assertFailed :=
  ⟨by decide, duplicate_comm_asserts regEnv0 st0.store 0 0 (by decide)⟩

/-- C8: update_k_n replaces the stored nonce of the communicator with prng
applied to its previous value (the PRF back-end selected at initialisation)
and changes no other entry of the key/nonce store: the key storage, both
maps, and every other nonce cell are untouched. -/
theorem update_k_n_correct (prng : Nat → Nat) (st : KNStore) (comm : MPIComm)
    (i : Nat) (hm : mapLookup st.k_n_map comm = some i)
    (hi : i < st.k_n_storage.length) :
    (update_k_n prng st comm).k_s_storage = st.k_s_storage ∧
    (update_k_n prng st comm).k_s_map = st.k_s_map ∧
    (update_k_n prng st comm).k_n_map = st.k_n_map ∧
    nonce st comm = some (st.k_n_storage.getD i 0) ∧
    nonce (update_k_n prng st comm) comm =
      some (prng (st.k_n_storage.getD i 0)) ∧
    (∀ j, j ≠ i →
      (update_k_n prng st comm).k_n_storage[j]? = st.k_n_storage[j]?) := by
  have hupd : update_k_n prng st comm =
      { st with k_n_storage :=
          st.k_n_storage.set i (prng (st.k_n_storage.getD i 0)) } := by
    unfold update_k_n mapIndexOrInsert
    rw [hm]
  refine ⟨by rw [hupd], by rw [hupd], by rw [hupd], ?_, ?_, ?_⟩
  · simp [nonce, hm, List.getElem?_eq_getElem hi,
      List.getD_eq_getElem st.k_n_storage 0 hi]
  · rw [hupd]
    simp only [nonce, hm, Option.bind_eq_bind, Option.some_bind]
    exact List.getElem?_set_eq_of_lt _ hi
  · intro j hj
    rw [hupd]
    exact List.getElem?_set_ne (Ne.symm hj)

/-- Witness for C8 at the concrete exemplar store. -/
theorem update_k_n_correct_witness :
    mapLookup st0.store.k_n_map 0 = some 0 ∧ 0 < st0.store.k_n_storage.length ∧
    ((update_k_n Nat.succ st0.store 0).k_s_storage = st0.store.k_s_storage ∧
     (update_k_n Nat.succ st0.store 0).k_s_map = st0.store.k_s_map ∧
     (update_k_n Nat.succ st0.store 0).k_n_map = st0.store.k_n_map ∧
     nonce st0.store 0 = some (st0.store.k_n_storage.getD 0 0) ∧
     nonce (update_k_n Nat.succ st0.store 0) 0 =
       some (Nat.succ (st0.store.k_n_storage.getD 0 0)) ∧
     (∀ j, j ≠ 0 →
       (update_k_n Nat.succ st0.store 0).k_n_storage[j]? =
         st0.store.k_n_storage[j]?)) :=
  ⟨by decide, by decide,
    update_k_n_correct Nat.succ st0.store 0 0 (by decide) (by decide)⟩

/-- C2: correctness of the intercepted integer-sum all-reduce, with the mask
engine modelled from the spec (encrypt.hpp is not among this repository's
sources). For every participant count N of at least 2, every count of at
least 1 and every element position j, the sum over all ranks of the masked
values, taken modulo 2^32 as the MPL's 32-bit sum computes it, followed by
the no-op sum decryption, is bit-exactly the sum of the plaintext inputs
modulo 2^32: the additive masks, with rank N-1 carrying the negated sum of
the other ranks' masks, cancel. -/
theorem int_sum_allreduce_correct (prf : Nat → Nat) (ks : List Nat) (kn : Nat)
    (N count j : Nat) (x : Nat → Nat) (hN : 2 ≤ N) (hc : 1 ≤ count)
    (hj : j < count) :
    decrypt_int_sum
        ((∑ r in Finset.range N, encrypt_int_sum prf ks kn N r (x r) j) % 2 ^ 32)
      = (∑ r in Finset.range N, x r) % 2 ^ 32 := by
  obtain ⟨n, rfl⟩ : ∃ n, N = n + 1 := ⟨N - 1, by omega⟩
  unfold decrypt_int_sum
  rw [Finset.sum_range_succ, Finset.sum_range_succ]
  have hsum : (∑ r in Finset.range n, encrypt_int_sum prf ks kn (n + 1) r (x r) j)
      = ∑ r in Finset.range n, (x r + mask prf ks kn r j) % 2 ^ 32 := by
    apply Finset.sum_congr rfl
    intro r hr
    rw [encrypt_int_sum, if_neg]
    simp only [Finset.mem_range] at hr
    omega
  have hlast : encrypt_int_sum prf ks kn (n + 1) n (x n) j
      = (x n + (2 ^ 32 -
          (∑ i in Finset.range n, mask prf ks kn i j) % 2 ^ 32)) % 2 ^ 32 := by
    rw [encrypt_int_sum, if_pos (by omega)]
    norm_num
  rw [hsum, hlast]
  have h1 : (∑ r in Finset.range n, (x r + mask prf ks kn r j) % 2 ^ 32) % 2 ^ 32
      = ((∑ r in Finset.range n, x r) +
          (∑ r in Finset.range n, mask prf ks kn r j)) % 2 ^ 32 := by
    rw [← Finset.sum_nat_mod, Finset.sum_add_distrib]
  generalize (∑ r in Finset.range n, (x r + mask prf ks kn r j) % 2 ^ 32) = c at h1
  generalize (∑ r in Finset.range n, x r) = a at h1 ⊢
  generalize (∑ i in Finset.range n, mask prf ks kn i j) = s at h1 ⊢
  omega

/-- Witness for C2 at two ranks and a single element. -/
theorem int_sum_allreduce_correct_witness :
    (2 ≤ 2 ∧ 1 ≤ 1 ∧ 0 < 1) ∧
    decrypt_int_sum
        ((∑ r in Finset.range 2,
            encrypt_int_sum id [0, 0] 0 2 r ((fun r => r + 7) r) 0) % 2 ^ 32)
      = (∑ r in Finset.range 2, (fun r => r + 7) r) % 2 ^ 32 :=
  ⟨⟨by norm_num, by norm_num, by norm_num⟩,
    int_sum_allreduce_correct id [0, 0] 0 2 1 0 (fun r => r + 7)
      (by norm_num) (by norm_num) (by norm_num)⟩

/-- C7: after insert_new_comm succeeds, the shared-key vector stored for the
communicator is the vector delivered by the all-gather: its length is the
participant count, the slot at the caller's own rank still holds the fresh
random word that rank contributed (the in-place all-gather preserves the
caller's slot), and the stored nonce is the root rank's word as delivered by
the broadcast; when either collective fails, the function returns that
transport error. -/
theorem insert_new_comm_correct (env : RegEnv) (st : KNStore) (comm : MPIComm)
    (hks : mapLookup st.k_s_map comm = none)
    (hkn : mapLookup st.k_n_map comm = none)
    (hlen : ∀ v, (env.allgatherOut v).length = v.length)
    (hown : ∀ v, env.my_rank < v.length →
        (env.allgatherOut v)[env.my_rank]? = v[env.my_rank]?)
    (hrank : env.my_rank < env.comm_size) :
    (env.allgatherRet ≠ MPI_SUCCESS →
       ∃ st', insert_new_comm env st comm = .ret env.allgatherRet st') ∧
    (env.allgatherRet = MPI_SUCCESS → env.bcastRet ≠ MPI_SUCCESS →
       ∃ st', insert_new_comm env st comm = .ret env.bcastRet st') ∧
    (env.allgatherRet = MPI_SUCCESS → env.bcastRet = MPI_SUCCESS →
       ∃ st' K, insert_new_comm env st comm = .ret MPI_SUCCESS st' ∧
         sharedKeys st' comm = some K ∧
         K = env.allgatherOut
               ((List.replicate env.comm_size env.my_rank).set
                 env.my_rank env.fresh) ∧
         K.length = env.comm_size ∧
         K[env.my_rank]? = some env.fresh ∧
         nonce st' comm = some env.rootWord) := by
  have hv0len :
      ((List.replicate env.comm_size env.my_rank).set
        env.my_rank env.fresh).length = env.comm_size := by
    simp
  refine ⟨?_, ?_, ?_⟩
  · intro hag
    unfold insert_new_comm
    simp only [mapInsert, hks]
    simp [hag]
  · intro hag hbc
    unfold insert_new_comm
    simp only [mapInsert, hks]
    simp [hag, hbc, mapInsert, hkn]
  · intro hag hbc
    have hrun : insert_new_comm env st comm = .ret MPI_SUCCESS
        { k_s_storage :=
            (st.k_s_storage ++
              [(List.replicate env.comm_size env.my_rank).set
                env.my_rank env.fresh]).set st.k_s_storage.length
              (env.allgatherOut
                ((List.replicate env.comm_size env.my_rank).set
                  env.my_rank env.fresh))
          k_s_map := st.k_s_map ++ [(comm, st.k_s_storage.length)]
          k_n_storage :=
            (st.k_n_storage ++
              [if env.my_rank = 0 then env.rootFresh else 42]).set
              st.k_n_storage.length env.rootWord
          k_n_map := st.k_n_map ++ [(comm, st.k_n_storage.length)] } := by
      unfold insert_new_comm
      simp only [mapInsert, hks]
      simp [hag, hbc, mapInsert, hkn, mapLookup_append_self _ _ _ hks,
        mapLookup_append_self _ _ _ hkn, List.getD_eq_getElem?_getD,
        List.getElem?_concat_length]
    refine ⟨_, _, hrun, ?_, rfl, ?_, ?_, ?_⟩
    · simp only [sharedKeys, mapLookup_append_self _ _ _ hks,
        Option.bind_eq_bind, Option.some_bind]
      exact List.getElem?_set_eq_of_lt _ (by simp)
    · rw [hlen, hv0len]
    · rw [hown _ (by rw [hv0len]; exact hrank)]
      exact List.getElem?_set_eq_of_lt _ (by simpa using hrank)
    · simp only [nonce, mapLookup_append_self _ _ _ hkn,
        Option.bind_eq_bind, Option.some_bind]
      exact List.getElem?_set_eq_of_lt _ (by simp)

/-- Witness for C7 at a concrete empty store and a two-rank registration
environment whose collectives succeed and whose all-gather is the
identity. -/
theorem insert_new_comm_correct_witness :
    ∃ st' K,
      insert_new_comm regEnv0
          { k_s_storage := [], k_s_map := [],
            k_n_storage := [], k_n_map := [] } 3 = .ret MPI_SUCCESS st' ∧
      sharedKeys st' 3 = some K ∧
      K = regEnv0.allgatherOut
            ((List.replicate regEnv0.comm_size regEnv0.my_rank).set
              regEnv0.my_rank regEnv0.fresh) ∧
      K.length = regEnv0.comm_size ∧
      K[regEnv0.my_rank]? = some regEnv0.fresh ∧
      nonce st' 3 = some regEnv0.rootWord :=
  (insert_new_comm_correct regEnv0
      { k_s_storage := [], k_s_map := [], k_n_storage := [], k_n_map := [] } 3
      (by decide) (by decide) (fun v => rfl) (fun v h => rfl)
      (by decide)).2.2 rfl rfl

/-- C3: on every intercepted all-reduce call with a supported (dtype, op) --
every call that is not bypassed -- the nonce of the communicator is advanced
exactly once (the trace starts with the advance event and contains no
other, and the resulting store is update_k_n of the entry state), and the
advance precedes every masking event, on the non-pipelined path and on the
pipelined path, where the per-block encryptions all follow the single
advance. -/
theorem nonce_advanced_once_before_masking (env : CallEnv) (B : Nat)
    (hB : 0 < B) (st : HearSt) (count : Nat) (dt : Dtype) (op : ROp)
    (comm : MPIComm) (h : bypass dt op = false) :
    (∃ t, (MPI_Allreduce_nonpipelined env st count dt op comm).2.2 =
        Ev.advance :: t ∧ Ev.advance ∉ t) ∧
    ((MPI_Allreduce_nonpipelined env st count dt op comm).2.1).store =
      update_k_n env.prng st.store comm ∧
    (∀ l₁ l₂, (MPI_Allreduce_nonpipelined env st count dt op comm).2.2 =
        l₁ ++ Ev.encrypt :: l₂ → Ev.advance ∈ l₁) ∧
    (∃ t, (MPI_Allreduce_pipelined env B hB st count dt op comm).2.2 =
        Ev.advance :: t ∧ Ev.advance ∉ t) ∧
    ((MPI_Allreduce_pipelined env B hB st count dt op comm).2.1).store =
      update_k_n env.prng st.store comm ∧
    (∀ l₁ l₂, (MPI_Allreduce_pipelined env B hB st count dt op comm).2.2 =
        l₁ ++ Ev.encrypt :: l₂ → Ev.advance ∈ l₁) := by
  have key :
      (∃ t, (MPI_Allreduce_nonpipelined env st count dt op comm).2.2 =
          Ev.advance :: t ∧ Ev.advance ∉ t) ∧
      ((MPI_Allreduce_nonpipelined env st count dt op comm).2.1).store =
        update_k_n env.prng st.store comm ∧
      (∃ t, (MPI_Allreduce_pipelined env B hB st count dt op comm).2.2 =
          Ev.advance :: t ∧ Ev.advance ∉ t) ∧
      ((MPI_Allreduce_pipelined env B hB st count dt op comm).2.1).store =
        update_k_n env.prng st.store comm := by
    by_cases ha : env.allocOk 0 = false
    · rw [np_alloc_fail env st count dt op comm h ha,
        pl_alloc_fail_first env B hB st count dt op comm h ha]
      exact ⟨⟨[], rfl, by simp⟩, rfl, ⟨[], rfl, by simp⟩, rfl⟩
    · replace ha : env.allocOk 0 = true := by simpa using ha
      by_cases hs : coreSupported dt op = true
      · rw [np_ok env st count dt op comm hs ha,
          pl_ok_entry env B hB st count dt op comm hs ha]
        refine ⟨?_, ?_, ?_, ?_⟩
        · by_cases hr : env.shadowRet 0 ≠ MPI_SUCCESS
          · rw [if_pos hr]
            exact ⟨_, rfl, by simp⟩
          · rw [if_neg hr]
            exact ⟨_, rfl, by simp⟩
        · by_cases hr : env.shadowRet 0 ≠ MPI_SUCCESS
          · rw [if_pos hr]
          · rw [if_neg hr]
        · refine ⟨_, rfl, ?_⟩
          simp [pipeLoop_no_advance env B hB dt op count 0 _ true]
        · simp [pipeLoop_store env B hB dt op count 0 _ true]
      · replace hs : coreSupported dt op = false := by simpa using hs
        rw [np_unsupported env st count dt op comm h hs ha,
          pl_unsupported env B hB st count dt op comm h hs ha]
        exact ⟨⟨_, rfl, by simp⟩, rfl, ⟨_, rfl, by simp⟩, rfl⟩
  obtain ⟨⟨t1, ht1, hm1⟩, hst1, ⟨t2, ht2, hm2⟩, hst2⟩ := key
  exact ⟨⟨t1, ht1, hm1⟩, hst1, head_advance_before _ t1 ht1,
    ⟨t2, ht2, hm2⟩, hst2, head_advance_before _ t2 ht2⟩

/-- Witness for C3 at a concrete supported call. -/
theorem nonce_advanced_once_before_masking_witness :
    bypass Dtype.int ROp.sum = false ∧
    (∃ t, (MPI_Allreduce_nonpipelined envOk st0 1 Dtype.int ROp.sum 0).2.2 =
        Ev.advance :: t ∧ Ev.advance ∉ t) ∧
    (∃ t, (MPI_Allreduce_pipelined envOk 1 Nat.one_pos st0 1
        Dtype.int ROp.sum 0).2.2 = Ev.advance :: t ∧ Ev.advance ∉ t) :=
  ⟨rfl,
    (nonce_advanced_once_before_masking envOk 1 Nat.one_pos st0 1
      Dtype.int ROp.sum 0 rfl).1,
    (nonce_advanced_once_before_masking envOk 1 Nat.one_pos st0 1
      Dtype.int ROp.sum 0 rfl).2.2.2.1⟩

/-- C4: after any completed (returning) reduction, success or error, every
scratch buffer acquired during the call has been released: the number of
held buffers (pool slabs in use, or live heap scratch allocations) returns
to its pre-call value on every exit path of the non-pipelined wrapper, and
on every returning exit path of the pipelined wrapper (the positivity of
count excludes the degenerate count = 0 pipelined call, whose final
decryption reads an uninitialised block length). -/
theorem scratch_buffers_conserved (env : CallEnv) (B : Nat) (hB : 0 < B)
    (st : HearSt) (count : Nat) (dt : Dtype) (op : ROp) (comm : MPIComm) :
    ((MPI_Allreduce_nonpipelined env st count dt op comm).2.1).live = st.live ∧
    (0 < count →
      (MPI_Allreduce_pipelined env B hB st count dt op comm).1 ≠
        CallRes.assertAbort →
      ((MPI_Allreduce_pipelined env B hB st count dt op comm).2.1).live =
        st.live) := by
  constructor
  · by_cases hb : bypass dt op = true
    · rw [np_bypass env st count dt op comm hb]
    · replace hb : bypass dt op = false := by simpa using hb
      by_cases ha : env.allocOk 0 = false
      · rw [np_alloc_fail env st count dt op comm hb ha]
      · replace ha : env.allocOk 0 = true := by simpa using ha
        by_cases hs : coreSupported dt op = true
        · rw [np_ok env st count dt op comm hs ha]
          by_cases hr : env.shadowRet 0 ≠ MPI_SUCCESS
          · rw [if_pos hr]
          · rw [if_neg hr]
        · replace hs : coreSupported dt op = false := by simpa using hs
          rw [np_unsupported env st count dt op comm hb hs ha]
  · intro hc habort
    by_cases hb : bypass dt op = true
    · rw [pl_bypass env B hB st count dt op comm hb]
    · replace hb : bypass dt op = false := by simpa using hb
      by_cases ha : env.allocOk 0 = false
      · exact absurd (by
          rw [pl_alloc_fail_first env B hB st count dt op comm hb ha]) habort
      · replace ha : env.allocOk 0 = true := by simpa using ha
        by_cases hs : coreSupported dt op = true
        · rw [pl_ok_entry env B hB st count dt op comm hs ha]
          have hl := pipeLoop_live env B hB dt op count 0
            { store := update_k_n env.prng st.store comm, live := st.live + 1 }
            true hc
          simp only [hl]
          omega
        · replace hs : coreSupported dt op = false := by simpa using hs
          exact absurd (by
            rw [pl_unsupported env B hB st count dt op comm hb hs ha]) habort

/-- Witness for C4 at a concrete one-element supported call on both
wrappers. -/
theorem scratch_buffers_conserved_witness :
    ((MPI_Allreduce_nonpipelined envOk st0 1 Dtype.int ROp.sum 0).2.1).live =
        st0.live ∧
    ((MPI_Allreduce_pipelined envOk 1 Nat.one_pos st0 1 Dtype.int ROp.sum
        0).2.1).live = st0.live := by
  have h := scratch_buffers_conserved envOk 1 Nat.one_pos st0 1
    Dtype.int ROp.sum 0
  refine ⟨h.1, h.2 (by norm_num) ?_⟩
  have heval : (MPI_Allreduce_pipelined envOk 1 Nat.one_pos st0 1
      Dtype.int ROp.sum 0).1 = CallRes.ret MPI_SUCCESS := by
    simp [MPI_Allreduce_pipelined, pipeLoop, encrypt_sendbuf, envOk, bypass,
      release_memory, decrypt_recvbuf_ret, MPI_SUCCESS, update_k_n,
      mapIndexOrInsert, mapLookup, st0]
  rw [heval]
  simp

/-- C5: on every supported request on which a shadow MPL call fails (the
blocking all-reduce of the non-pipelined path, or the j-th non-blocking
all-reduce of the pipelined path, the earlier ones having succeeded), the
intercepted MPI_Allreduce returns that exact code unchanged and the held
scratch buffer count returns to its pre-call value before returning. -/
theorem shadow_error_propagated (env : CallEnv) (B : Nat) (hB : 0 < B)
    (st : HearSt) (count : Nat) (dt : Dtype) (op : ROp) (comm : MPIComm)
    (j : Nat) (hs : coreSupported dt op = true)
    (halloc : ∀ i, env.allocOk i = true) :
    (env.shadowRet 0 ≠ MPI_SUCCESS →
      (MPI_Allreduce_nonpipelined env st count dt op comm).1 =
        CallRes.ret (env.shadowRet 0) ∧
      ((MPI_Allreduce_nonpipelined env st count dt op comm).2.1).live =
        st.live) ∧
    (0 < count → (∀ i, i < j → env.shadowRet i = MPI_SUCCESS) →
      env.shadowRet j ≠ MPI_SUCCESS → j < nblocks count B →
      (MPI_Allreduce_pipelined env B hB st count dt op comm).1 =
        CallRes.ret (env.shadowRet j) ∧
      ((MPI_Allreduce_pipelined env B hB st count dt op comm).2.1).live =
        st.live) := by
  constructor
  · intro hr
    rw [np_ok env st count dt op comm hs (halloc 0), if_pos hr]
    exact ⟨rfl, rfl⟩
  · intro hc hpre hfail hjn
    rw [pl_ok_entry env B hB st count dt op comm hs (halloc 0)]
    constructor
    · have := pipeLoop_shadow_err env B hB dt op hs halloc count j 0
        { store := update_k_n env.prng st.store comm, live := st.live + 1 }
        true hc (fun i hi => by simpa using hpre i hi) (by simpa using hfail)
        hjn
      simpa using this
    · have hl := pipeLoop_live env B hB dt op count 0
        { store := update_k_n env.prng st.store comm, live := st.live + 1 }
        true hc
      simp only [hl]
      omega

/-- Witness for C5: a failing shadow call with code 7 on both wrappers. -/
theorem shadow_error_propagated_witness :
    ((MPI_Allreduce_nonpipelined envShadowFail st0 1 Dtype.int ROp.sum 0).1 =
        CallRes.ret (envShadowFail.shadowRet 0) ∧
      ((MPI_Allreduce_nonpipelined envShadowFail st0 1 Dtype.int ROp.sum
          0).2.1).live = st0.live) ∧
    ((MPI_Allreduce_pipelined envShadowFail 1 Nat.one_pos st0 1 Dtype.int
        ROp.sum 0).1 = CallRes.ret (envShadowFail.shadowRet 0) ∧
      ((MPI_Allreduce_pipelined envShadowFail 1 Nat.one_pos st0 1 Dtype.int
          ROp.sum 0).2.1).live = st0.live) := by
  have h := shadow_error_propagated envShadowFail 1 Nat.one_pos st0 1
    Dtype.int ROp.sum 0 0 rfl (fun i => rfl)
  exact ⟨h.1 (by decide), h.2 (by norm_num)
    (fun i hi => absurd hi (by omega)) (by decide) (by decide)⟩

/-- C9 counterexample: on the pipelined path, when the acquisition for the
first block yields no buffer, the intercepted call does not return
MPI_ERR_BUFFER: the cleanup path passes the null buffer pointer to
release_memory, whose assert(buf) fails and aborts the process. -/
theorem alloc_fail_first_block_counterexample :
    (MPI_Allreduce_pipelined envAllocFail 1 Nat.one_pos st0 1
        Dtype.int ROp.sum 0).1 = CallRes.assertAbort ∧
    CallRes.assertAbort ≠ CallRes.ret MPI_ERR_BUFFER := by
  exact ⟨by decide, by decide⟩

/-- C9 (amended): when a scratch buffer cannot be obtained, the intercepted
MPI_Allreduce returns MPI_ERR_BUFFER on the non-pipelined path and on every
pipelined block after the first; a failed acquisition for the pipelined
path's first block instead trips the null-buffer assertion in
release_memory and aborts. -/
theorem alloc_fail_buffer_error (env : CallEnv) (B : Nat) (hB : 0 < B)
    (st : HearSt) (count : Nat) (dt : Dtype) (op : ROp) (comm : MPIComm)
    (j : Nat) :
    (bypass dt op = false → env.allocOk 0 = false →
      (MPI_Allreduce_nonpipelined env st count dt op comm).1 =
        CallRes.ret MPI_ERR_BUFFER) ∧
    (bypass dt op = false → env.allocOk 0 = false →
      (MPI_Allreduce_pipelined env B hB st count dt op comm).1 =
        CallRes.assertAbort) ∧
    (coreSupported dt op = true → (∀ i, env.shadowRet i = MPI_SUCCESS) →
      0 < count → (∀ i, i < j → env.allocOk (1 + i) = true) →
      env.allocOk 0 = true → env.allocOk (1 + j) = false →
      j + 1 < nblocks count B →
      (MPI_Allreduce_pipelined env B hB st count dt op comm).1 =
        CallRes.ret MPI_ERR_BUFFER) := by
  refine ⟨?_, ?_, ?_⟩
  · intro hb ha
    rw [np_alloc_fail env st count dt op comm hb ha]
  · intro hb ha
    rw [pl_alloc_fail_first env B hB st count dt op comm hb ha]
  · intro hs hsh hc hpre ha0 hfail hjn
    rw [pl_ok_entry env B hB st count dt op comm hs ha0]
    exact pipeLoop_alloc_err env B hB dt op hs hsh count j 0
      { store := update_k_n env.prng st.store comm, live := st.live + 1 }
      true hc (fun i hi => by simpa using hpre i hi) (by simpa using hfail)
      hjn

/-- Witness for C9 (amended): the non-pipelined wrapper and a later
pipelined block return MPI_ERR_BUFFER on allocation failure, and the first
pipelined block aborts. -/
theorem alloc_fail_buffer_error_witness :
    (MPI_Allreduce_nonpipelined envAllocFail st0 1 Dtype.int ROp.sum 0).1 =
        CallRes.ret MPI_ERR_BUFFER ∧
    (MPI_Allreduce_pipelined envAllocFail 1 Nat.one_pos st0 1
        Dtype.int ROp.sum 0).1 = CallRes.assertAbort ∧
    (MPI_Allreduce_pipelined envAllocFailLater 2 (Nat.succ_pos 1) st0 3
        Dtype.int ROp.sum 0).1 = CallRes.ret MPI_ERR_BUFFER := by
  have h1 := alloc_fail_buffer_error envAllocFail 1 Nat.one_pos st0 1
    Dtype.int ROp.sum 0 0
  have h2 := alloc_fail_buffer_error envAllocFailLater 2 (Nat.succ_pos 1) st0 3
    Dtype.int ROp.sum 0 0
  exact ⟨h1.1 rfl rfl, h1.2.1 rfl rfl,
    h2.2.2 rfl (fun i => rfl) (by norm_num)
      (fun i hi => absurd hi (by omega)) rfl (by decide) (by decide)⟩

/-- C10: on a non-pipelined all-reduce call with dtype float32 and op prod,
the nonce of the communicator is advanced before the unsupported
combination is detected (the trace is advance, acquire, release, in that
order), so the key/nonce store is mutated -- the stored nonce changes
whenever the PRF moves it -- by a call that then returns MPI_ERR_BUFFER
without performing any shadow reduction. -/
theorem float_prod_advances_nonce_then_errors (env : CallEnv) (st : HearSt)
    (count : Nat) (comm : MPIComm) (i : Nat) (ha : env.allocOk 0 = true)
    (hm : mapLookup st.store.k_n_map comm = some i)
    (hi : i < st.store.k_n_storage.length)
    (hp : env.prng (st.store.k_n_storage.getD i 0) ≠
      st.store.k_n_storage.getD i 0) :
    (MPI_Allreduce_nonpipelined env st count Dtype.float ROp.prod comm).1 =
        CallRes.ret MPI_ERR_BUFFER ∧
    MPI_ERR_BUFFER ≠ MPI_SUCCESS ∧
    (MPI_Allreduce_nonpipelined env st count Dtype.float ROp.prod comm).2.2 =
        [Ev.advance, Ev.acquire, Ev.release] ∧
    Ev.shadow ∉
      (MPI_Allreduce_nonpipelined env st count Dtype.float ROp.prod
        comm).2.2 ∧
    nonce ((MPI_Allreduce_nonpipelined env st count Dtype.float ROp.prod
        comm).2.1).store comm ≠ nonce st.store comm := by
  rw [np_unsupported env st count Dtype.float ROp.prod comm rfl rfl ha]
  refine ⟨rfl, by decide, rfl, by simp, ?_⟩
  have hupd : update_k_n env.prng st.store comm =
      { st.store with k_n_storage :=
          st.store.k_n_storage.set i (env.prng (st.store.k_n_storage.getD i 0)) } := by
    unfold update_k_n mapIndexOrInsert
    rw [hm]
  show nonce (update_k_n env.prng st.store comm) comm ≠ nonce st.store comm
  rw [hupd]
  simp only [nonce, hm, Option.bind_eq_bind, Option.some_bind]
  rw [List.getElem?_set_eq_of_lt _ hi, List.getElem?_eq_getElem hi,
    List.getD_eq_getElem st.store.k_n_storage 0 hi]
  rw [List.getD_eq_getElem st.store.k_n_storage 0 hi] at hp
  exact fun hcc => hp (Option.some.inj hcc)

/-- Witness for C10 at the concrete exemplar state, whose PRF is the
successor function. -/
theorem float_prod_advances_nonce_then_errors_witness :
    (MPI_Allreduce_nonpipelined envOk st0 4 Dtype.float ROp.prod 0).1 =
        CallRes.ret MPI_ERR_BUFFER ∧
    nonce ((MPI_Allreduce_nonpipelined envOk st0 4 Dtype.float ROp.prod
        0).2.1).store 0 ≠ nonce st0.store 0 :=
  ⟨(float_prod_advances_nonce_then_errors envOk st0 4 0 0 rfl (by decide)
      (by decide) (by decide)).1,
    (float_prod_advances_nonce_then_errors envOk st0 4 0 0 rfl (by decide)
      (by decide) (by decide)).2.2.2.2⟩

/-- C1 counterexample: a float32 product request is not forwarded untouched
to the MPL: at a concrete state the call's result differs from the native
forward's code, a scratch buffer is acquired, and the key/nonce store is
mutated. -/
theorem float_prod_bypass_counterexample :
    (MPI_Allreduce_nonpipelined envOk st0 1 Dtype.float ROp.prod 0).1 ≠
        CallRes.ret envOk.nativeRet ∧
    Ev.acquire ∈
      (MPI_Allreduce_nonpipelined envOk st0 1 Dtype.float ROp.prod 0).2.2 ∧
    ((MPI_Allreduce_nonpipelined envOk st0 1 Dtype.float ROp.prod
        0).2.1).store ≠ st0.store := by
  exact ⟨by decide, by decide, by decide⟩

/-- C1 (amended): a float32 product request does not bypass the core on the
non-pipelined path: the call advances the nonce, acquires a scratch buffer
and releases it again, never invokes the native all-reduce, and returns
MPI_ERR_BUFFER. -/
theorem float_prod_enters_core (env : CallEnv) (st : HearSt) (count : Nat)
    (comm : MPIComm) (ha : env.allocOk 0 = true) :
    MPI_Allreduce_nonpipelined env st count Dtype.float ROp.prod comm =
      (CallRes.ret MPI_ERR_BUFFER,
        { st with store := update_k_n env.prng st.store comm },
        [Ev.advance, Ev.acquire, Ev.release]) ∧
    Ev.shadow ∉ [Ev.advance, Ev.acquire, Ev.release] :=
  ⟨np_unsupported env st count Dtype.float ROp.prod comm rfl rfl ha,
    by decide⟩

/-- Witness for C1 (amended) at the concrete exemplar state. -/
theorem float_prod_enters_core_witness :
    envOk.allocOk 0 = true ∧
    MPI_Allreduce_nonpipelined envOk st0 1 Dtype.float ROp.prod 0 =
      (CallRes.ret MPI_ERR_BUFFER,
        { st0 with store := update_k_n envOk.prng st0.store 0 },
        [Ev.advance, Ev.acquire, Ev.release]) :=
  ⟨rfl, (float_prod_enters_core envOk st0 1 0 rfl).1⟩

end Hear
